import Mathlib

/-!
Verification of `char_freq.py`: a character-frequency scanner for a repository.

The development shallowly embeds the program:
* `should_skip_file` follows the Python function of the same name; the pieces of
  `pathlib.PurePosixPath` it relies on (`parts`, `suffix`) and `str.lower` are
  modelled structurally on `List Char` (ASCII lowering suffices, since the fixed
  extension set is ASCII).
* `scan_repo` follows the Python function of the same name; the filesystem
  (`os.walk`, `open().read()`) is an oracle `FS`, and the outcome of reading one
  file is a `ReadResult` with one constructor per exception class the code
  distinguishes.  The Python `Counter` is modelled by the mapping it denotes, a
  `Multiset Char` (`Counter.update` only ever adds occurrences).
* `print_results` follows the Python function of the same name; it consumes the
  items view of the counter (a `List (Char × Nat)`), `Counter.most_common()` is
  a stable sort by count descending, percentages are exact rationals, and the
  console/CSV side effects are captured in a `PrintOutput` record.
-/

deriving instance DecidableEq for Except

/-- Model of Python `str.lower` for one character, restricted to ASCII
(the fixed extension set only contains ASCII strings). -/
def lowerChar (c : Char) : Char :=
  if 'A' ≤ c ∧ c ≤ 'Z' then Char.ofNat (c.toNat + 32) else c

/-- Model of Python `str.lower` (ASCII range). -/
def lowerString (s : String) : String :=
  ⟨s.toList.map lowerChar⟩

/-- Split a character list at every `'/'`, keeping empty segments,
modelling how POSIX path strings decompose into components. -/
def splitSlash : List Char → List (List Char)
  | [] => [[]]
  | c :: rest =>
    match splitSlash rest with
    | [] => [[]]
    | seg :: segs => if c = '/' then [] :: seg :: segs else (c :: seg) :: segs

/-- Whether the path string is absolute (starts with `'/'`). -/
def pathIsAbs (s : String) : Bool :=
  match s.toList with
  | c :: _ => c = '/'
  | [] => false

/-- Model of `pathlib.PurePosixPath(s).parts`: the non-empty, non-`"."`
components, preceded by the root `"/"` for an absolute path. -/
def pathParts (s : String) : List String :=
  let rel := ((splitSlash s.toList).map (fun seg => (⟨seg⟩ : String))).filter
    (fun p => p ≠ "" && p ≠ ".")
  if pathIsAbs s then "/" :: rel else rel

/-- Model of `pathlib.PurePosixPath(s).name`: the final component
(empty for the bare root). -/
def pathName (s : String) : String :=
  match (pathParts s).getLast? with
  | some p => if p = "/" then "" else p
  | none => ""

/-- Index of the last occurrence of `c` in the list, modelling `str.rfind`. -/
def lastIdxOf (c : Char) : List Char → Option Nat
  | [] => none
  | x :: rest =>
    match lastIdxOf c rest with
    | some i => some (i + 1)
    | none => if x = c then some 0 else none

/-- Model of `pathlib.PurePosixPath(s).suffix`: the final component's last
extension including the dot, and `""` when the last dot is leading, trailing,
or absent. -/
def pathSuffix (s : String) : String :=
  let name := (pathName s).toList
  match lastIdxOf '.' name with
  | some i => if 0 < i ∧ i + 1 < name.length then ⟨name.drop i⟩ else ""
  | none => ""

/-- The fixed extension exclusion set of `should_skip_file`. -/
def skip_extensions : List String :=
  [".pyc", ".exe", ".dll", ".so", ".dylib", ".json",
   ".jpg", ".jpeg", ".png", ".gif", ".ico", ".svg",
   ".pdf", ".zip", ".tar", ".gz", ".7z", ".webp",
   ".mp3", ".mp4", ".avi", ".mov", ".yaml", ".jar",
   ".ttf", ".woff", ".woff2", ".cursorrules", ".ipynb",
   ".pkl", ".h5", ".model", ".txt", ".class", ".tree"]

/-- The fixed directory-name exclusion set of `should_skip_file`. -/
def skip_dirs : List String :=
  ["node_modules", "venv", "env", ".git", ".svelte-kit", ".mvn",
   "__pycache__", "build", "dist", ".idea", ".husky", ".turbo"]

/-- Embedding of `should_skip_file`: skip when the lower-cased suffix is an
excluded extension, or when any path component is an excluded directory name. -/
def should_skip_file (filepath : String) : Bool :=
  if skip_extensions.contains (lowerString (pathSuffix filepath)) then true
  else if (pathParts filepath).any (fun part => skip_dirs.contains part) then true
  else false

theorem contains_iff_mem (l : List String) (a : String) :
    l.contains a = true ↔ a ∈ l := by
  simp [List.contains, List.elem_iff]

theorem should_skip_file_eq_or (p : String) :
    should_skip_file p = true ↔
      lowerString (pathSuffix p) ∈ skip_extensions ∨
        ∃ part ∈ pathParts p, part ∈ skip_dirs := by
  unfold should_skip_file
  split
  · rename_i h
    rw [contains_iff_mem] at h
    simp [h]
  · rename_i h
    rw [contains_iff_mem] at h
    split
    · rename_i h2
      simp only [List.any_eq_true, contains_iff_mem] at h2
      simp [h, h2]
    · rename_i h2
      simp only [List.any_eq_true, contains_iff_mem] at h2
      simp [h, h2]

/-- C3: `should_skip_file` holds exactly when the lower-cased suffix is in the
fixed extension set or some component is in the fixed directory set; an empty
suffix never triggers the extension rule, and a `node_modules` component at any
depth always causes a skip. -/
theorem should_skip_file_spec (p : String) :
    (should_skip_file p = true ↔
      lowerString (pathSuffix p) ∈ skip_extensions ∨
        ∃ part ∈ pathParts p, part ∈ skip_dirs) ∧
    (pathSuffix p = "" → lowerString (pathSuffix p) ∉ skip_extensions) ∧
    ("node_modules" ∈ pathParts p → should_skip_file p = true) := by
  refine ⟨should_skip_file_eq_or p, ?_, ?_⟩
  · intro h
    rw [h]
    decide
  · intro h
    exact (should_skip_file_eq_or p).2 (Or.inr ⟨"node_modules", h, by decide⟩)

/-- C3 witness: a concrete deep `node_modules` path is skipped, and a concrete
extensionless path is not skipped by the extension rule. -/
theorem should_skip_file_spec_witness :
    ("node_modules" ∈ pathParts "a/b/node_modules/c.weird" ∧
      should_skip_file "a/b/node_modules/c.weird" = true) ∧
    (pathSuffix "src/Makefile" = "" ∧
      lowerString (pathSuffix "src/Makefile") ∉ skip_extensions) :=
  ⟨⟨by decide, (should_skip_file_spec "a/b/node_modules/c.weird").2.2 (by decide)⟩,
   ⟨by decide, (should_skip_file_spec "src/Makefile").2.1 (by decide)⟩⟩

/-- Outcome of attempting `open(filepath, 'r', encoding='utf-8').read()` on one
file: success with the decoded content, one of the three exception classes the
code catches, or any other `OSError` (not caught, so it propagates). -/
inductive ReadResult where
  | ok (content : List Char)
  | unicodeDecodeError (msg : String)
  | permissionError (msg : String)
  | fileNotFoundError (msg : String)
  | otherOSError (msg : String)
deriving DecidableEq, Repr

/-- Filesystem oracle: `walk root` is the sequence of `(dirpath, filenames)`
pairs that `os.walk(root)` yields (a nonexistent root yields the empty
sequence), and `read p` is the outcome of reading path `p` as UTF-8 text. -/
structure FS where
  walk : String → List (String × List String)
  read : String → ReadResult

/-- Model of POSIX `os.path.join(a, b)` as used for `os.path.join(root, file)`. -/
def osPathJoin (a b : String) : String :=
  if pathIsAbs b then b
  else if a = "" then a ++ b
  else if a.toList.getLast? = some '/' then a ++ b
  else a ++ "/" ++ b

/-- All file paths the `os.walk` loop of `scan_repo` visits, in order. -/
def discoveredFiles (fs : FS) (repo_path : String) : List String :=
  (fs.walk repo_path).flatMap (fun entry => entry.2.map (fun file => osPathJoin entry.1 file))

/-- The body of `scan_repo`'s loop over discovered files, carrying the
accumulated `char_count`, `file_count` and `error_files` exactly as the Python
loop does; an uncaught exception aborts the whole scan (`Except.error`). -/
def scanFiles (fs : FS) : List String → Multiset Char → Nat →
    List (String × String) → Except String (Multiset Char × Nat × List (String × String))
  | [], char_count, file_count, error_files => .ok (char_count, file_count, error_files)
  | filepath :: rest, char_count, file_count, error_files =>
    if should_skip_file filepath then
      scanFiles fs rest char_count file_count error_files
    else
      match fs.read filepath with
      | .ok content =>
        scanFiles fs rest (char_count + ↑content) (file_count + 1) error_files
      | .unicodeDecodeError msg =>
        scanFiles fs rest char_count file_count (error_files ++ [(filepath, msg)])
      | .permissionError msg =>
        scanFiles fs rest char_count file_count (error_files ++ [(filepath, msg)])
      | .fileNotFoundError msg =>
        scanFiles fs rest char_count file_count (error_files ++ [(filepath, msg)])
      | .otherOSError msg => .error msg

/-- Embedding of `scan_repo`. -/
def scan_repo (fs : FS) (repo_path : String) :
    Except String (Multiset Char × Nat × List (String × String)) :=
  scanFiles fs (discoveredFiles fs repo_path) 0 0 []

/-- Whether reading `p` succeeds. -/
def readOk (fs : FS) (p : String) : Bool :=
  match fs.read p with
  | .ok _ => true
  | _ => false

/-- Whether reading `p` raises one of the three caught exception classes. -/
def readSoft (fs : FS) (p : String) : Bool :=
  match fs.read p with
  | .unicodeDecodeError _ => true
  | .permissionError _ => true
  | .fileNotFoundError _ => true
  | _ => false

/-- Whether reading `p` raises an uncaught error. -/
def readHard (fs : FS) (p : String) : Bool :=
  match fs.read p with
  | .otherOSError _ => true
  | _ => false

/-- The content obtained from a successful read (`[]` otherwise). -/
def contentOf (fs : FS) (p : String) : List Char :=
  match fs.read p with
  | .ok content => content
  | _ => []

/-- The `str(e)` of a read outcome (`""` for a successful read). -/
def msgOf : ReadResult → String
  | .ok _ => ""
  | .unicodeDecodeError m => m
  | .permissionError m => m
  | .fileNotFoundError m => m
  | .otherOSError m => m

/-- The files of a list that pass the Filter gate. -/
def passFilter (files : List String) : List String :=
  files.filter (fun p => !should_skip_file p)

/-- The files of a list that pass the Filter gate and read successfully. -/
def okFiles (fs : FS) (files : List String) : List String :=
  (passFilter files).filter (fun p => readOk fs p)

/-- The character tally contributed by the successfully read files of a list. -/
def okTally (fs : FS) (files : List String) : Multiset Char :=
  ((okFiles fs files).map (fun p => (contentOf fs p : Multiset Char))).sum

/-- The `(path, error)` pairs contributed by the files of a list whose read
fails with a caught exception. -/
def softErrs (fs : FS) (files : List String) : List (String × String) :=
  ((passFilter files).filter (fun p => readSoft fs p)).map
    (fun p => (p, msgOf (fs.read p)))

/-- The discovered files that pass the Filter gate. -/
def eligibleFiles (fs : FS) (repo_path : String) : List String :=
  passFilter (discoveredFiles fs repo_path)

theorem read_cases (fs : FS) (p : String) :
    (readOk fs p = true ∧ readSoft fs p = false ∧ readHard fs p = false) ∨
    (readOk fs p = false ∧ readSoft fs p = true ∧ readHard fs p = false) ∨
    (readOk fs p = false ∧ readSoft fs p = false ∧ readHard fs p = true) := by
  unfold readOk readSoft readHard
  cases fs.read p <;> simp

theorem scanFiles_ok (fs : FS) (files : List String)
    (hnh : ∀ p ∈ files, should_skip_file p = false → readHard fs p = false) :
    ∀ char_count file_count error_files,
      scanFiles fs files char_count file_count error_files =
        .ok (char_count + okTally fs files, file_count + (okFiles fs files).length,
             error_files ++ softErrs fs files) := by
  induction files with
  | nil =>
    intro cc fc errs
    simp [scanFiles, okTally, okFiles, softErrs, passFilter]
  | cons p rest ih =>
    intro cc fc errs
    have hrest : ∀ q ∈ rest, should_skip_file q = false → readHard fs q = false :=
      fun q hq => hnh q (List.mem_cons_of_mem p hq)
    by_cases hskip : should_skip_file p
    · simp only [scanFiles, hskip, if_true, ih hrest]
      simp [okTally, okFiles, softErrs, passFilter, hskip]
    · have hskip' : should_skip_file p = false := by simp [hskip]
      have hpf : passFilter (p :: rest) = p :: passFilter rest := by
        simp [passFilter, List.filter_cons, hskip']
      simp only [scanFiles, hskip', Bool.false_eq_true, if_false]
      cases heq : fs.read p with
      | ok content =>
        simp only [heq, ih hrest]
        have hok : okFiles fs (p :: rest) = p :: okFiles fs rest := by
          simp [okFiles, hpf, List.filter_cons, readOk, heq]
        have hse : softErrs fs (p :: rest) = softErrs fs rest := by
          simp [softErrs, hpf, List.filter_cons, readSoft, heq]
        have hct : contentOf fs p = content := by simp [contentOf, heq]
        simp only [okTally, hok, hse, hct, List.map_cons, List.sum_cons,
          Except.ok.injEq, Prod.mk.injEq, List.length_cons]
        refine ⟨add_assoc cc _ _, by omega, trivial⟩
      | unicodeDecodeError msg =>
        simp only [heq, ih hrest]
        have hok : okFiles fs (p :: rest) = okFiles fs rest := by
          simp [okFiles, hpf, List.filter_cons, readOk, heq]
        have hse : softErrs fs (p :: rest) = (p, msg) :: softErrs fs rest := by
          simp [softErrs, hpf, List.filter_cons, readSoft, heq, msgOf]
        simp only [okTally, hok, hse]
        simp
      | permissionError msg =>
        simp only [heq, ih hrest]
        have hok : okFiles fs (p :: rest) = okFiles fs rest := by
          simp [okFiles, hpf, List.filter_cons, readOk, heq]
        have hse : softErrs fs (p :: rest) = (p, msg) :: softErrs fs rest := by
          simp [softErrs, hpf, List.filter_cons, readSoft, heq, msgOf]
        simp only [okTally, hok, hse]
        simp
      | fileNotFoundError msg =>
        simp only [heq, ih hrest]
        have hok : okFiles fs (p :: rest) = okFiles fs rest := by
          simp [okFiles, hpf, List.filter_cons, readOk, heq]
        have hse : softErrs fs (p :: rest) = (p, msg) :: softErrs fs rest := by
          simp [softErrs, hpf, List.filter_cons, readSoft, heq, msgOf]
        simp only [okTally, hok, hse]
        simp
      | otherOSError msg =>
        exact absurd (hnh p (List.mem_cons_self p rest) hskip') (by simp [readHard, heq])

theorem scanFiles_ok_iff (fs : FS) (files : List String) :
    ∀ char_count file_count error_files,
      (∃ r, scanFiles fs files char_count file_count error_files = .ok r) ↔
        ∀ p ∈ files, should_skip_file p = false → readHard fs p = false := by
  induction files with
  | nil =>
    intro cc fc errs
    simp [scanFiles]
  | cons p rest ih =>
    intro cc fc errs
    by_cases hskip : should_skip_file p
    · simp only [scanFiles, hskip, if_true]
      rw [ih]
      constructor
      · intro h q hq hqs
        rcases List.mem_cons.mp hq with rfl | hq'
        · simp [hskip] at hqs
        · exact h q hq' hqs
      · intro h q hq hqs
        exact h q (List.mem_cons_of_mem p hq) hqs
    · have hskip' : should_skip_file p = false := by simp [hskip]
      simp only [scanFiles, hskip', Bool.false_eq_true, if_false]
      cases heq : fs.read p with
      | otherOSError msg =>
        apply iff_of_false
        · rintro ⟨r, hr⟩
          cases hr
        · intro h
          exact absurd (h p (List.mem_cons_self p rest) hskip') (by simp [readHard, heq])
      | ok content =>
        rw [ih]
        constructor
        · intro h q hq hqs
          rcases List.mem_cons.mp hq with rfl | hq'
          · simp [readHard, heq]
          · exact h q hq' hqs
        · intro h q hq hqs
          exact h q (List.mem_cons_of_mem p hq) hqs
      | unicodeDecodeError msg =>
        rw [ih]
        constructor
        · intro h q hq hqs
          rcases List.mem_cons.mp hq with rfl | hq'
          · simp [readHard, heq]
          · exact h q hq' hqs
        · intro h q hq hqs
          exact h q (List.mem_cons_of_mem p hq) hqs
      | permissionError msg =>
        rw [ih]
        constructor
        · intro h q hq hqs
          rcases List.mem_cons.mp hq with rfl | hq'
          · simp [readHard, heq]
          · exact h q hq' hqs
        · intro h q hq hqs
          exact h q (List.mem_cons_of_mem p hq) hqs
      | fileNotFoundError msg =>
        rw [ih]
        constructor
        · intro h q hq hqs
          rcases List.mem_cons.mp hq with rfl | hq'
          · simp [readHard, heq]
          · exact h q hq' hqs
        · intro h q hq hqs
          exact h q (List.mem_cons_of_mem p hq) hqs

theorem scan_repo_ok_iff (fs : FS) (rp : String) :
    (∃ r, scan_repo fs rp = .ok r) ↔
      ∀ p ∈ eligibleFiles fs rp, readHard fs p = false := by
  simp only [scan_repo]
  rw [scanFiles_ok_iff]
  constructor
  · intro h p hp
    have hm := List.mem_filter.mp hp
    exact h p hm.1 (by simpa using hm.2)
  · intro h p hp hps
    exact h p (List.mem_filter.mpr ⟨hp, by simp [hps]⟩)

theorem scan_repo_ok (fs : FS) (rp : String)
    (hnh : ∀ p ∈ eligibleFiles fs rp, readHard fs p = false) :
    scan_repo fs rp = .ok (okTally fs (discoveredFiles fs rp),
      (okFiles fs (discoveredFiles fs rp)).length,
      softErrs fs (discoveredFiles fs rp)) := by
  have h : ∀ p ∈ discoveredFiles fs rp, should_skip_file p = false →
      readHard fs p = false := by
    intro p hp hps
    exact hnh p (List.mem_filter.mpr ⟨hp, by simp [hps]⟩)
  rw [scan_repo, scanFiles_ok fs _ h]
  simp

theorem okFiles_eq_filter (fs : FS) (rp : String) :
    (eligibleFiles fs rp).filter (fun p => readOk fs p) =
      okFiles fs (discoveredFiles fs rp) := rfl

theorem length_filter_partition (fs : FS) (l : List String)
    (h : ∀ p ∈ l, readHard fs p = false) :
    (l.filter (fun p => readOk fs p)).length +
      (l.filter (fun p => readSoft fs p)).length = l.length := by
  induction l with
  | nil => simp
  | cons p rest ih =>
    have hp := h p (List.mem_cons_self p rest)
    have hrest := ih (fun q hq => h q (List.mem_cons_of_mem p hq))
    rcases read_cases fs p with ⟨h1, h2, _⟩ | ⟨h1, h2, _⟩ | ⟨_, _, h3⟩
    · simp only [List.filter_cons, h1, h2, if_true, Bool.false_eq_true, if_false,
        List.length_cons]
      omega
    · simp only [List.filter_cons, h1, h2, if_true, Bool.false_eq_true, if_false,
        List.length_cons]
      omega
    · rw [hp] at h3
      cases h3

theorem map_fst_pair (g : String → String) (L : List String) :
    (L.map (fun p => (p, g p))).map Prod.fst = L := by
  induction L with
  | nil => rfl
  | cons a L ih => simp [ih]

theorem softErrs_map_fst (fs : FS) (l : List String) :
    (softErrs fs l).map Prod.fst = (passFilter l).filter (fun p => readSoft fs p) := by
  rw [softErrs]
  exact map_fst_pair _ _

theorem softErrs_length (fs : FS) (rp : String) :
    (softErrs fs (discoveredFiles fs rp)).length =
      ((eligibleFiles fs rp).filter (fun p => readSoft fs p)).length := by
  simp [softErrs, eligibleFiles]

/-- C1: when `scan_repo` completes, `file_count` is the number of Filter-passing
files whose read-and-merge succeeded, `file_count` plus the error-list length is
the total number of Filter-passing files, and no path in the error list is among
the successfully counted files. -/
theorem scan_file_count_invariant (fs : FS) (rp : String) (t : Multiset Char)
    (fc : Nat) (errs : List (String × String))
    (h : scan_repo fs rp = .ok (t, fc, errs)) :
    fc = ((eligibleFiles fs rp).filter (fun p => readOk fs p)).length ∧
    fc + errs.length = (eligibleFiles fs rp).length ∧
    ∀ p ∈ errs.map Prod.fst,
      p ∉ (eligibleFiles fs rp).filter (fun p => readOk fs p) := by
  have hnh : ∀ p ∈ eligibleFiles fs rp, readHard fs p = false :=
    (scan_repo_ok_iff fs rp).mp ⟨_, h⟩
  have hchar := scan_repo_ok fs rp hnh
  rw [h] at hchar
  obtain ⟨ht, hfc, herrs⟩ : t = okTally fs (discoveredFiles fs rp) ∧
      fc = (okFiles fs (discoveredFiles fs rp)).length ∧
      errs = softErrs fs (discoveredFiles fs rp) := by
    simpa only [Except.ok.injEq, Prod.mk.injEq] using hchar
  refine ⟨by rw [okFiles_eq_filter]; exact hfc, ?_, ?_⟩
  · rw [hfc, herrs, softErrs_length, ← okFiles_eq_filter]
    exact length_filter_partition fs (eligibleFiles fs rp) hnh
  · intro p hp
    rw [herrs, softErrs_map_fst] at hp
    have hsoft := (List.mem_filter.mp hp).2
    intro hmem
    have hok := (List.mem_filter.mp hmem).2
    rcases read_cases fs p with ⟨_, h2, _⟩ | ⟨h1, _, _⟩ | ⟨h1, _, _⟩
    · rw [h2] at hsoft
      cases hsoft
    · rw [h1] at hok
      cases hok
    · rw [h1] at hok
      cases hok

/-- The filesystem used by concrete witnesses: one readable file, one
extension-skipped file, one undecodable file, one vanished file, one
unreadable file, and a `node_modules` subtree. -/
def fsA : FS where
  walk := fun rp =>
    if rp = "repo" then
      [("repo", ["main.go", "logo.png", "data.bin", "gone.md", "secret.env"]),
       ("repo/node_modules", ["skip.js"])]
    else []
  read := fun p =>
    if p = "repo/main.go" then .ok "aabbcc".toList
    else if p = "repo/data.bin" then .unicodeDecodeError "invalid start byte"
    else if p = "repo/gone.md" then .fileNotFoundError "no such file"
    else if p = "repo/secret.env" then .permissionError "permission denied"
    else .otherOSError "unexpected"

/-- C1 witness: on `fsA`, one successful file and three recorded errors,
matching the number of Filter-passing files. -/
theorem scan_file_count_invariant_witness :
    scan_repo fsA "repo" =
      .ok ((↑("aabbcc".toList) : Multiset Char), 1,
        [("repo/data.bin", "invalid start byte"), ("repo/gone.md", "no such file"),
         ("repo/secret.env", "permission denied")]) ∧
    1 = ((eligibleFiles fsA "repo").filter (fun p => readOk fsA p)).length ∧
    1 + 3 = (eligibleFiles fsA "repo").length := by
  refine ⟨by decide, ?_, ?_⟩
  · exact (scan_file_count_invariant fsA "repo" (↑("aabbcc".toList)) 1
      [("repo/data.bin", "invalid start byte"), ("repo/gone.md", "no such file"),
       ("repo/secret.env", "permission denied")] (by decide)).1
  · have h := (scan_file_count_invariant fsA "repo" (↑("aabbcc".toList)) 1
      [("repo/data.bin", "invalid start byte"), ("repo/gone.md", "no such file"),
       ("repo/secret.env", "permission denied")] (by decide)).2.1
    simpa using h

/-- C2: when the scan completes, every recorded error pair is exactly a decode,
permission, or not-found failure on its path, failed files contribute nothing
to the tally or the file count, and the existence of any other I/O failure on a
Filter-passing file makes the whole scan abort with an error. -/
theorem scan_error_taxonomy (fs : FS) (rp : String) :
    (∀ t fc errs, scan_repo fs rp = .ok (t, fc, errs) →
      (∀ pe ∈ errs,
        fs.read pe.1 = .unicodeDecodeError pe.2 ∨
        fs.read pe.1 = .permissionError pe.2 ∨
        fs.read pe.1 = .fileNotFoundError pe.2) ∧
      t = okTally fs (discoveredFiles fs rp) ∧
      fc = (okFiles fs (discoveredFiles fs rp)).length) ∧
    ((∃ p ∈ eligibleFiles fs rp, readHard fs p = true) →
      ∃ msg, scan_repo fs rp = .error msg) := by
  constructor
  · intro t fc errs h
    have hnh : ∀ p ∈ eligibleFiles fs rp, readHard fs p = false :=
      (scan_repo_ok_iff fs rp).mp ⟨_, h⟩
    have hchar := scan_repo_ok fs rp hnh
    rw [h] at hchar
    obtain ⟨ht, hfc, herrs⟩ : t = okTally fs (discoveredFiles fs rp) ∧
        fc = (okFiles fs (discoveredFiles fs rp)).length ∧
        errs = softErrs fs (discoveredFiles fs rp) := by
      simpa only [Except.ok.injEq, Prod.mk.injEq] using hchar
    refine ⟨?_, ht, hfc⟩
    intro pe hpe
    rw [herrs, softErrs] at hpe
    obtain ⟨p, hp, rfl⟩ := List.mem_map.mp hpe
    have hsoft : readSoft fs p = true := (List.mem_filter.mp hp).2
    unfold readSoft at hsoft
    cases heq : fs.read p with
    | ok _ => rw [heq] at hsoft; cases hsoft
    | otherOSError _ => rw [heq] at hsoft; cases hsoft
    | unicodeDecodeError m => exact Or.inl (by simp [heq, msgOf])
    | permissionError m => exact Or.inr (Or.inl (by simp [heq, msgOf]))
    | fileNotFoundError m => exact Or.inr (Or.inr (by simp [heq, msgOf]))
  · rintro ⟨p, hp, hhard⟩
    cases hres : scan_repo fs rp with
    | error msg => exact ⟨msg, rfl⟩
    | ok r =>
      have := (scan_repo_ok_iff fs rp).mp ⟨r, hres⟩ p hp
      rw [hhard] at this
      cases this

/-- A filesystem whose single discovered file fails with an uncaught error. -/
def fsB : FS where
  walk := fun rp => if rp = "repo" then [("repo", ["dir.entry"])] else []
  read := fun _ => .otherOSError "device error"

/-- C2 witness: on `fsA` the recorded decode-error pair matches the read
outcome of its path, and on `fsB` the unexpected failure aborts the scan. -/
theorem scan_error_taxonomy_witness :
    fsA.read "repo/data.bin" = ReadResult.unicodeDecodeError "invalid start byte" ∧
    (∃ msg, scan_repo fsB "repo" = .error msg) := by
  constructor
  · have h := ((scan_error_taxonomy fsA "repo").1 (↑("aabbcc".toList)) 1
      [("repo/data.bin", "invalid start byte"), ("repo/gone.md", "no such file"),
       ("repo/secret.env", "permission denied")] (by decide)).1
      ("repo/data.bin", "invalid start byte") (by decide)
    rcases h with h | h | h
    · exact h
    · exact absurd h (by decide)
    · exact absurd h (by decide)
  · exact (scan_error_taxonomy fsB "repo").2 ⟨"repo/dir.entry", by decide, by decide⟩

theorem card_list_sum (fs : FS) (l : List String) :
    Multiset.card ((l.map (fun p => (contentOf fs p : Multiset Char))).sum) =
      (l.map (fun p => (contentOf fs p).length)).sum := by
  induction l with
  | nil => simp
  | cons p rest ih => simp [List.map_cons, List.sum_cons, ih]

/-- C6: when the scan completes, the sum of all counts in the final tally
equals the sum of the character-lengths of the contents of all successfully
read files. -/
theorem tally_total_conservation (fs : FS) (rp : String) (t : Multiset Char)
    (fc : Nat) (errs : List (String × String))
    (h : scan_repo fs rp = .ok (t, fc, errs)) :
    ∑ c ∈ t.toFinset, t.count c =
      (((eligibleFiles fs rp).filter (fun p => readOk fs p)).map
        (fun p => (contentOf fs p).length)).sum := by
  have hnh : ∀ p ∈ eligibleFiles fs rp, readHard fs p = false :=
    (scan_repo_ok_iff fs rp).mp ⟨_, h⟩
  have hchar := scan_repo_ok fs rp hnh
  rw [h] at hchar
  obtain ⟨ht, -, -⟩ : t = okTally fs (discoveredFiles fs rp) ∧
      fc = (okFiles fs (discoveredFiles fs rp)).length ∧
      errs = softErrs fs (discoveredFiles fs rp) := by
    simpa only [Except.ok.injEq, Prod.mk.injEq] using hchar
  rw [Multiset.toFinset_sum_count_eq, ht, okTally, card_list_sum, okFiles_eq_filter]

/-- C6 witness: on `fsA` the tally's total count equals the length of the one
successfully read content. -/
theorem tally_total_conservation_witness :
    ∑ c ∈ (↑("aabbcc".toList) : Multiset Char).toFinset,
        (↑("aabbcc".toList) : Multiset Char).count c =
      (((eligibleFiles fsA "repo").filter (fun p => readOk fsA p)).map
        (fun p => (contentOf fsA p).length)).sum :=
  tally_total_conservation fsA "repo" (↑("aabbcc".toList)) 1
    [("repo/data.bin", "invalid start byte"), ("repo/gone.md", "no such file"),
     ("repo/secret.env", "permission denied")] (by decide)

/-- C7: processing the same files in any traversal order yields the same final
tally and the same file count (the error list may be reordered). -/
theorem scan_order_independent (fs : FS) (l₁ l₂ : List String) (hperm : l₁.Perm l₂)
    (t : Multiset Char) (fc : Nat) (errs : List (String × String))
    (h : scanFiles fs l₁ 0 0 [] = .ok (t, fc, errs)) :
    ∃ errs', scanFiles fs l₂ 0 0 [] = .ok (t, fc, errs') := by
  have hnh1 : ∀ p ∈ l₁, should_skip_file p = false → readHard fs p = false :=
    (scanFiles_ok_iff fs l₁ 0 0 []).mp ⟨_, h⟩
  have hnh2 : ∀ p ∈ l₂, should_skip_file p = false → readHard fs p = false :=
    fun p hp => hnh1 p (hperm.mem_iff.mpr hp)
  refine ⟨softErrs fs l₂, ?_⟩
  rw [scanFiles_ok fs l₂ hnh2]
  rw [scanFiles_ok fs l₁ hnh1] at h
  simp only [zero_add, List.nil_append, Except.ok.injEq, Prod.mk.injEq] at h ⊢
  obtain ⟨ht, hfc, -⟩ := h
  have hof : (okFiles fs l₁).Perm (okFiles fs l₂) := (hperm.filter _).filter _
  refine ⟨?_, ?_, trivial⟩
  · rw [← ht, okTally, okTally]
    exact ((hof.map _).sum_eq).symm
  · rw [← hfc]
    exact hof.length_eq.symm

/-- C7 witness: the two-file list scanned in both orders yields the same tally
and file count. -/
theorem scan_order_independent_witness :
    scanFiles fsA ["repo/main.go", "repo/data.bin"] 0 0 [] =
      .ok ((↑("aabbcc".toList) : Multiset Char), 1,
        [("repo/data.bin", "invalid start byte")]) ∧
    ∃ errs', scanFiles fsA ["repo/data.bin", "repo/main.go"] 0 0 [] =
      .ok ((↑("aabbcc".toList) : Multiset Char), 1, errs') :=
  ⟨by decide,
   scan_order_independent fsA ["repo/main.go", "repo/data.bin"]
     ["repo/data.bin", "repo/main.go"] (by decide) (↑("aabbcc".toList)) 1
     [("repo/data.bin", "invalid start byte")] (by decide)⟩

/-- C8: a root whose walk yields nothing (e.g. a nonexistent directory)
produces the empty tally, a zero file count and no errors, identical to the
scan of an existing empty directory. -/
theorem nonexistent_root_empty_result (fs fsE : FS) (rp : String)
    (h : fs.walk rp = []) (hE : fsE.walk rp = [(rp, [])]) :
    scan_repo fs rp = .ok (0, 0, []) ∧ scan_repo fsE rp = scan_repo fs rp := by
  have h1 : scan_repo fs rp = .ok (0, 0, []) := by
    rw [scan_repo, discoveredFiles, h]
    rfl
  have h2 : scan_repo fsE rp = .ok (0, 0, []) := by
    rw [scan_repo, discoveredFiles, hE]
    rfl
  exact ⟨h1, h2.trans h1.symm⟩

/-- A filesystem in which every walk yields nothing. -/
def fsN : FS where
  walk := fun _ => []
  read := fun _ => .otherOSError "unused"

/-- A filesystem in which the root `"missing"` is an empty directory. -/
def fsD : FS where
  walk := fun rp => if rp = "missing" then [("missing", [])] else []
  read := fun _ => .otherOSError "unused"

/-- C8 witness: scanning the walk-less root and the empty directory both give
the empty result. -/
theorem nonexistent_root_empty_result_witness :
    scan_repo fsN "missing" = .ok (0, 0, []) ∧
    scan_repo fsD "missing" = scan_repo fsN "missing" :=
  nonexistent_root_empty_result fsN fsD "missing" (by decide) (by decide)

/-- Model of Python `str.isspace` for the ASCII whitespace characters. -/
def pyIsSpace (c : Char) : Bool :=
  c = ' ' || c = '\t' || c = '\n' || c = '\x0b' || c = '\x0c' || c = '\r'

/-- Model of Python `str.isalpha` (ASCII letters). -/
def pyIsAlpha (c : Char) : Bool := c.isAlpha

/-- One insertion step of a stable count-descending sort: the new item passes
exactly the strictly greater counts, so earlier items precede later ones with
equal counts (as Python's stable `sorted(..., reverse=True)` does). -/
def insertByCount (x : Char × Nat) : List (Char × Nat) → List (Char × Nat)
  | [] => [x]
  | y :: ys => if y.2 ≤ x.2 then x :: y :: ys else y :: insertByCount x ys

/-- Model of `Counter.most_common()` on the counter's items view: a stable
sort by count descending. -/
def sortByCountDesc : List (Char × Nat) → List (Char × Nat)
  | [] => []
  | x :: xs => insertByCount x (sortByCountDesc xs)

/-- The `char_display` the loop body of `print_results` computes: a quoted
space for `' '`, a backslash followed by the raw character for any other
whitespace, and the bare character otherwise. -/
def displayOf (c : Char) : String :=
  if pyIsSpace c then
    (if c = ' ' then String.mk ['\x27', ' ', '\x27'] else "\\" ++ c.toString)
  else c.toString

/-- Whether a character survives the two `continue` filters of the loop in
`print_results`. -/
def qualifies (show_spaces exclude_letters : Bool) (c : Char) : Bool :=
  !(exclude_letters && pyIsAlpha c) && !(pyIsSpace c && !show_spaces)

/-- The row the loop body of `print_results` appends for one item:
`(char_display, count, (count / total_chars) * 100)`. -/
def rowOf (total_chars : Nat) (it : Char × Nat) : String × Nat × ℚ :=
  (displayOf it.1, it.2, ((it.2 : ℚ) / (total_chars : ℚ)) * 100)

/-- The `for char, count in char_count.most_common()` loop of `print_results`:
skip excluded letters, skip whitespace unless shown, append the display row,
and break once `len(results) >= top_n` holds after an append. -/
def buildResults (total_chars top_n : Nat) (show_spaces exclude_letters : Bool) :
    List (Char × Nat) → List (String × Nat × ℚ) → List (String × Nat × ℚ)
  | [], results => results
  | (char, count) :: rest, results =>
    if exclude_letters && pyIsAlpha char then
      buildResults total_chars top_n show_spaces exclude_letters rest results
    else if pyIsSpace char && !show_spaces then
      buildResults total_chars top_n show_spaces exclude_letters rest results
    else
      let results' := results ++ [rowOf total_chars (char, count)]
      if top_n ≤ results'.length then results'
      else buildResults total_chars top_n show_spaces exclude_letters rest results'

/-- The observable output of `print_results`: the summary counts, the rows
printed and collected in `results`, the CSV file written when `save_csv` is on
(name relative to the current working directory, header row, data rows), and
the trailing error report lines. -/
structure PrintOutput where
  file_count : Nat
  total_chars : Nat
  results : List (String × Nat × ℚ)
  csv_file : Option (String × List String × List (String × Nat × ℚ))
  error_lines : List (String × String)
deriving DecidableEq, Repr

/-- Embedding of `print_results`, consuming the counter's items view
(`char_count.most_common()` is `sortByCountDesc`, `sum(char_count.values())`
is the sum of the item counts). -/
def print_results (char_count : List (Char × Nat)) (file_count : Nat)
    (error_files : List (String × String)) (top_n : Nat)
    (show_spaces save_csv exclude_letters : Bool) : PrintOutput :=
  let total_chars := (char_count.map Prod.snd).sum
  let results := buildResults total_chars top_n show_spaces exclude_letters
    (sortByCountDesc char_count) []
  { file_count := file_count
    total_chars := total_chars
    results := results
    csv_file :=
      if save_csv then
        some ("char_freqs.csv", ["Character", "Count", "Percentage"], results)
      else none
    error_lines := error_files }

theorem buildResults_eq (total top : Nat) (ss el : Bool) :
    ∀ (items : List (Char × Nat)) (acc : List (String × Nat × ℚ)),
      buildResults total top ss el items acc =
        acc ++ ((items.filter (fun it => qualifies ss el it.1)).map (rowOf total)).take
          (max (top - acc.length) 1) := by
  intro items
  induction items with
  | nil =>
    intro acc
    simp [buildResults]
  | cons it rest ih =>
    intro acc
    obtain ⟨c, cnt⟩ := it
    by_cases h1 : (el && pyIsAlpha c) = true
    · have hq : qualifies ss el c = false := by simp [qualifies, h1]
      simp only [buildResults, h1, if_true, List.filter_cons, hq, Bool.false_eq_true,
        if_false]
      exact ih acc
    · by_cases h2 : (pyIsSpace c && !ss) = true
      · have hq : qualifies ss el c = false := by
          simp only [qualifies]
          rw [h2]
          simp
        simp only [buildResults, h1, Bool.false_eq_true, if_false, h2, if_true,
          List.filter_cons, hq]
        exact ih acc
      · have hq : qualifies ss el c = true := by
          simp only [qualifies]
          simp only [Bool.not_eq_true] at h1 h2
          rw [h1, h2]
          rfl
        simp only [buildResults, h1, Bool.false_eq_true, if_false, h2,
          List.filter_cons, hq, if_true, List.map_cons]
        by_cases htop : top ≤ (acc ++ [rowOf total (c, cnt)]).length
        · rw [if_pos htop]
          have hlen : (acc ++ [rowOf total (c, cnt)]).length = acc.length + 1 := by
            simp
          rw [hlen] at htop
          have hmax : max (top - acc.length) 1 = 1 := Nat.max_eq_right (by omega)
          rw [hmax, List.take_succ_cons, List.take_zero]
        · rw [if_neg htop]
          rw [ih (acc ++ [rowOf total (c, cnt)])]
          have hlen : (acc ++ [rowOf total (c, cnt)]).length = acc.length + 1 := by
            simp
          rw [hlen] at htop ⊢
          have hge : acc.length + 1 < top := by omega
          have e1 : max (top - (acc.length + 1)) 1 = top - acc.length - 1 :=
            Nat.max_eq_left (by omega)
          have e2 : max (top - acc.length) 1 = top - acc.length :=
            Nat.max_eq_left (by omega)
          have e3 : top - acc.length = (top - acc.length - 1) + 1 := by omega
          rw [e1, e2, e3, List.take_succ_cons, List.append_assoc]
          rfl

theorem print_results_results_eq (char_count : List (Char × Nat)) (fc : Nat)
    (errs : List (String × String)) (top_n : Nat) (ss sc el : Bool) :
    (print_results char_count fc errs top_n ss sc el).results =
      (((sortByCountDesc char_count).filter (fun it => qualifies ss el it.1)).map
        (rowOf ((char_count.map Prod.snd).sum))).take (max 1 top_n) := by
  show buildResults ((char_count.map Prod.snd).sum) top_n ss el
      (sortByCountDesc char_count) [] = _
  rw [buildResults_eq]
  simp [Nat.max_comm]

theorem insertByCount_perm (x : Char × Nat) (l : List (Char × Nat)) :
    (insertByCount x l).Perm (x :: l) := by
  induction l with
  | nil => exact .refl _
  | cons y ys ih =>
    rw [insertByCount]
    by_cases h : y.2 ≤ x.2
    · rw [if_pos h]
    · rw [if_neg h]
      exact (ih.cons y).trans (List.Perm.swap x y ys)

theorem sortByCountDesc_perm (l : List (Char × Nat)) :
    (sortByCountDesc l).Perm l := by
  induction l with
  | nil => exact .refl _
  | cons x xs ih => exact (insertByCount_perm x _).trans (ih.cons x)

theorem mem_insertByCount {x y : Char × Nat} {l : List (Char × Nat)}
    (h : y ∈ insertByCount x l) : y = x ∨ y ∈ l := by
  have := (insertByCount_perm x l).mem_iff.mp h
  simpa using this

theorem sorted_insertByCount (x : Char × Nat) (l : List (Char × Nat))
    (h : l.Sorted (fun a b => b.2 ≤ a.2)) :
    (insertByCount x l).Sorted (fun a b => b.2 ≤ a.2) := by
  induction l with
  | nil => simp [insertByCount]
  | cons y ys ih =>
    rw [List.sorted_cons] at h
    obtain ⟨hy, hys⟩ := h
    rw [insertByCount]
    by_cases hc : y.2 ≤ x.2
    · rw [if_pos hc, List.sorted_cons]
      constructor
      · intro b hb
        rcases List.mem_cons.mp hb with rfl | hb'
        · exact hc
        · exact le_trans (hy b hb') hc
      · exact List.sorted_cons.mpr ⟨hy, hys⟩
    · rw [if_neg hc, List.sorted_cons]
      constructor
      · intro b hb
        rcases mem_insertByCount hb with rfl | hb'
        · omega
        · exact hy b hb'
      · exact ih hys

theorem sortByCountDesc_sorted (l : List (Char × Nat)) :
    (sortByCountDesc l).Sorted (fun a b => b.2 ≤ a.2) := by
  induction l with
  | nil => simp [sortByCountDesc]
  | cons x xs ih => exact sorted_insertByCount x _ ih

/-- A rational value expressible with exactly two fraction digits. -/
def twoFracDigits (q : ℚ) : Prop := ∃ n : ℤ, q = (n : ℚ) / 100

/-- C4 counterexample: with counts `a:1, b:2` (total 3) the CSV row for `b`
carries the full-precision percentage `200/3`, which cannot be written with
two fraction digits. -/
theorem csv_two_digit_counterexample :
    (print_results [('a', 1), ('b', 2)] 1 [] 50 false true false).csv_file =
      some ("char_freqs.csv", ["Character", "Count", "Percentage"],
        [("b", 2, (200 : ℚ) / 3), ("a", 1, (100 : ℚ) / 3)]) ∧
    ¬ twoFracDigits ((200 : ℚ) / 3) := by
  constructor
  · have h1 : rowOf 3 ('b', 2) = ("b", 2, (200 : ℚ) / 3) := by
      simp only [rowOf, Prod.mk.injEq]
      refine ⟨by decide, by decide, by norm_num⟩
    have h2 : rowOf 3 ('a', 1) = ("a", 1, (100 : ℚ) / 3) := by
      simp only [rowOf, Prod.mk.injEq]
      refine ⟨by decide, by decide, by norm_num⟩
    show some ("char_freqs.csv", ["Character", "Count", "Percentage"],
      [rowOf 3 ('b', 2), rowOf 3 ('a', 1)]) = _
    rw [h1, h2]
  · rintro ⟨n, hn⟩
    rw [div_eq_div_iff (by norm_num) (by norm_num)] at hn
    have hz : (200 * 100 : ℤ) = n * 3 := by exact_mod_cast hn
    omega

/-- C4 amended: with `save_csv` on, `print_results` emits a CSV named
`char_freqs.csv` (in the current working directory) whose header row is
`Character,Count,Percentage` and whose data rows are exactly the displayed
rows; each row's Percentage is the full-precision value
`100 * Count / total_chars`, not a value rounded to two fraction digits
(two-decimal formatting applies only to the console rendering). -/
theorem csv_output_format (char_count : List (Char × Nat)) (fc : Nat)
    (errs : List (String × String)) (top_n : Nat) (ss el : Bool) :
    (print_results char_count fc errs top_n ss true el).csv_file =
      some ("char_freqs.csv", ["Character", "Count", "Percentage"],
        (print_results char_count fc errs top_n ss true el).results) ∧
    ∀ row ∈ (print_results char_count fc errs top_n ss true el).results,
      row.2.2 = 100 * (row.2.1 : ℚ) / ((char_count.map Prod.snd).sum : ℚ) := by
  constructor
  · rfl
  · intro row hrow
    rw [print_results_results_eq] at hrow
    obtain ⟨it, hit, rfl⟩ := List.mem_map.mp (List.mem_of_mem_take hrow)
    rw [rowOf]
    ring

/-- C4 witness for the amended claim: on counts `b:2` (total 2) the CSV holds
header and rows, the row `("b", 2, 100)` is present, and its percentage equals
`100 * 2 / 2`. -/
theorem csv_output_format_witness :
    (print_results [('b', 2)] 1 [] 50 false true false).csv_file =
      some ("char_freqs.csv", ["Character", "Count", "Percentage"],
        (print_results [('b', 2)] 1 [] 50 false true false).results) ∧
    (rowOf 2 ('b', 2)).2.2 =
      100 * ((rowOf 2 ('b', 2)).2.1 : ℚ) /
      ((((([('b', 2)] : List (Char × Nat))).map Prod.snd).sum : Nat) : ℚ) := by
  refine ⟨(csv_output_format [('b', 2)] 1 [] 50 false false).1, ?_⟩
  exact (csv_output_format [('b', 2)] 1 [] 50 false false).2 (rowOf 2 ('b', 2))
    (by show _ ∈ [rowOf 2 ('b', 2)]; exact List.mem_singleton.mpr rfl)

/-- C5 counterexample: with `top_n = 0` and one qualifying character, one row
is still emitted (the break fires only after the first append). -/
theorem top_zero_counterexample :
    (print_results [('a', 1)] 1 [] 0 false false false).results.length = 1 ∧
    (print_results [('a', 1)] 1 [] 0 false false false).results ≠ [] := by
  have h1 : (print_results [('a', 1)] 1 [] 0 false false false).results.length = 1 := by
    decide
  refine ⟨h1, ?_⟩
  intro h
  rw [h] at h1
  exact absurd h1 (by decide)

/-- C5 amended: the displayed rows are the qualifying entries of the
count-descending tally truncated to `max 1 top_n` rows — hence at most `top_n`
rows whenever `1 ≤ top_n`, but one row (not zero) when `top_n = 0` and some
character qualifies; `sortByCountDesc` is a count-descending permutation of
the tally items, so the kept rows are the most frequent qualifying ones. -/
theorem top_limit_rows (char_count : List (Char × Nat)) (fc : Nat)
    (errs : List (String × String)) (top_n : Nat) (ss sc el : Bool) :
    (print_results char_count fc errs top_n ss sc el).results =
      (((sortByCountDesc char_count).filter (fun it => qualifies ss el it.1)).map
        (rowOf ((char_count.map Prod.snd).sum))).take (max 1 top_n) ∧
    (1 ≤ top_n → (print_results char_count fc errs top_n ss sc el).results.length ≤ top_n) ∧
    (sortByCountDesc char_count).Sorted (fun a b => b.2 ≤ a.2) ∧
    (sortByCountDesc char_count).Perm char_count := by
  refine ⟨print_results_results_eq char_count fc errs top_n ss sc el, ?_,
    sortByCountDesc_sorted _, sortByCountDesc_perm _⟩
  intro h1
  rw [print_results_results_eq, List.length_take]
  exact le_trans (Nat.min_le_left _ _) (le_of_eq (Nat.max_eq_right h1))

/-- C5 witness for the amended claim: with two items and `top_n = 1` the rows
are the truncated qualifying rows and number at most one. -/
theorem top_limit_rows_witness :
    (print_results [('a', 1), ('b', 2)] 1 [] 1 false false false).results =
      (((sortByCountDesc [('a', 1), ('b', 2)]).filter
        (fun it => qualifies false false it.1)).map (rowOf 3)).take (max 1 1) ∧
    (print_results [('a', 1), ('b', 2)] 1 [] 1 false false false).results.length ≤ 1 := by
  have h := top_limit_rows [('a', 1), ('b', 2)] 1 [] 1 false false false
  exact ⟨h.1, h.2.1 (by decide)⟩

/-- C9 counterexample: a newline row's display form is a backslash followed by
the raw newline, so the raw control character does appear in the displayed
form. -/
theorem whitespace_display_counterexample :
    (print_results [('\n', 1)] 1 [] 50 true false false).results =
      [("\\\n", 1, (100 : ℚ))] ∧
    '\n' ∈ ("\\\n" : String).toList := by
  constructor
  · have hr : rowOf 1 ('\n', 1) = ("\\\n", 1, (100 : ℚ)) := by
      simp only [rowOf, Prod.mk.injEq]
      refine ⟨by decide, by decide, by norm_num⟩
    show [rowOf 1 ('\n', 1)] = _
    rw [hr]
  · decide

/-- C9 amended: an included whitespace character is rendered with an
escape-style form — a quoted single space for `' '`, and for any other
whitespace a backslash immediately followed by the raw character, so the raw
character itself does appear (right after the prefix); the rows of
`print_results` use exactly this display form via `rowOf`. -/
theorem whitespace_display_form (c : Char) (hws : pyIsSpace c = true) :
    (displayOf c =
      if c = ' ' then String.mk ['\x27', ' ', '\x27'] else "\\" ++ c.toString) ∧
    (c ≠ ' ' → (displayOf c).toList = '\\' :: c.toString.toList) ∧
    ∀ (char_count : List (Char × Nat)) (fc : Nat) (errs : List (String × String))
      (top_n : Nat) (sc el : Bool),
      (print_results char_count fc errs top_n true sc el).results =
        (((sortByCountDesc char_count).filter (fun it => qualifies true el it.1)).map
          (rowOf ((char_count.map Prod.snd).sum))).take (max 1 top_n) := by
  refine ⟨?_, ?_, fun cc fc errs tn sc el => print_results_results_eq cc fc errs tn true sc el⟩
  · rw [displayOf, if_pos hws]
  · intro hne
    rw [displayOf, if_pos hws, if_neg hne]
    show ("\\" ++ c.toString).data = '\\' :: c.toString.data
    rw [String.data_append]
    rfl

/-- C9 witness for the amended claim: the tab character is displayed as a
backslash followed by the raw tab. -/
theorem whitespace_display_form_witness :
    pyIsSpace '\t' = true ∧ (displayOf '\t').toList = '\\' :: '\t'.toString.toList :=
  ⟨by decide, (whitespace_display_form '\t' (by decide)).2.1 (by decide)⟩

/-- The items view of a `Counter` holding the tally `t`: distinct keys, each
with the tally's (positive) multiplicity, covering every character of the
tally.  The Python `Counter` built by `Counter.update` only ever stores keys
it has seen, with positive counts. -/
def represents (items : List (Char × Nat)) (t : Multiset Char) : Prop :=
  (items.map Prod.fst).Nodup ∧
  (∀ it ∈ items, it.2 = t.count it.1 ∧ 0 < it.2) ∧
  (∀ c : Char, 0 < t.count c → c ∈ items.map Prod.fst)

/-- C10: percentages are computed only inside the row loop; for a tally
produced by a completed scan, an empty tally yields no rows (no percentage is
ever evaluated) and a non-empty tally makes `total_chars` strictly positive,
so the division `100 * count / total_chars` never divides by zero. -/
theorem no_division_by_zero (fs : FS) (rp : String) (t : Multiset Char)
    (fc : Nat) (errs : List (String × String)) (items : List (Char × Nat))
    (hscan : scan_repo fs rp = .ok (t, fc, errs)) (hrep : represents items t)
    (top_n : Nat) (ss sc el : Bool) :
    (t = 0 → (print_results items fc errs top_n ss sc el).results = []) ∧
    (t ≠ 0 → 0 < (print_results items fc errs top_n ss sc el).total_chars) := by
  constructor
  · intro ht
    have hitems : items = [] := by
      cases items with
      | nil => rfl
      | cons it rest =>
        have hc := hrep.2.1 it (List.mem_cons_self it rest)
        rw [ht] at hc
        simp at hc
        exact absurd hc.1 (by omega)
    subst hitems
    rw [print_results_results_eq]
    simp [sortByCountDesc]
  · intro ht
    obtain ⟨c, hc⟩ := Multiset.exists_mem_of_ne_zero ht
    have hcount : 0 < t.count c := Multiset.count_pos.mpr hc
    obtain ⟨it, hit, -⟩ := List.mem_map.mp (hrep.2.2 c hcount)
    have hpos : 0 < it.2 := (hrep.2.1 it hit).2
    have hmem : it.2 ∈ items.map Prod.snd := List.mem_map_of_mem _ hit
    have hle : it.2 ≤ (items.map Prod.snd).sum :=
      List.single_le_sum (fun x _ => Nat.zero_le x) _ hmem
    have htc : (print_results items fc errs top_n ss sc el).total_chars =
        (items.map Prod.snd).sum := rfl
    omega

/-- C10 witness: the `fsA` scan tally is non-empty and its items view gives a
strictly positive `total_chars`. -/
theorem no_division_by_zero_witness :
    (↑("aabbcc".toList) : Multiset Char) ≠ 0 ∧
    0 < (print_results [('a', 2), ('b', 2), ('c', 2)] 1
      [("repo/data.bin", "invalid start byte"), ("repo/gone.md", "no such file"),
       ("repo/secret.env", "permission denied")] 50 false false false).total_chars := by
  have hrep : represents [('a', 2), ('b', 2), ('c', 2)] (↑("aabbcc".toList)) := by
    refine ⟨by decide, by decide, ?_⟩
    intro c hc
    rw [Multiset.count_pos] at hc
    have hl : c ∈ ("aabbcc".toList) := hc
    have : c = 'a' ∨ c = 'b' ∨ c = 'c' := by
      have he : "aabbcc".toList = ['a', 'a', 'b', 'b', 'c', 'c'] := rfl
      rw [he] at hl
      simp at hl
      tauto
    rcases this with rfl | rfl | rfl <;> decide
  refine ⟨by decide, ?_⟩
  exact (no_division_by_zero fsA "repo" (↑("aabbcc".toList)) 1
    [("repo/data.bin", "invalid start byte"), ("repo/gone.md", "no such file"),
     ("repo/secret.env", "permission denied")] [('a', 2), ('b', 2), ('c', 2)]
    (by decide) hrep 50 false false false).2 (by decide)
